import Mathlib

/-!
Verification development for the Vaelen/MUSH server core
(world store, persistence, session registry, protocol filter).

The Go source is shallowly embedded: Go maps become association lists
(`GoMap`), `uint64` counters become `Nat` with an explicit `% 2^64` at
every increment, channel request/reply pairs become pure step functions
returning the new database together with the list of values sent on the
reply channel, and the file system is passed as an explicit parameter.
-/

namespace Mush

/-- Width of the Go `uint64` type used for `IdType` counters. -/
def U64 : Nat := 2 ^ 64

/-! ### Go maps as association lists

A Go `map[IdType]*V` is modelled as an association list.  The operations
mirror the Go map operations used by the source: indexing (`lookup`),
assignment (`insert`, which replaces the binding if the key is present and
otherwise adds it), and `delete` (`eraseKey`, a no-op for absent keys).
Go map equality is extensional (key set plus values), so theorems compare
maps through `lookup`.
-/

/-- Association-list model of a Go map. -/
def GoMap (V : Type) : Type := List (Nat × V)

namespace GoMap

variable {V : Type}

/-- The empty map (`make(map[IdType]*V)`). -/
def empty : GoMap V := []

/-- Go map indexing `m[k]`; `none` plays the role of the zero value. -/
def lookup (k : Nat) : GoMap V → Option V
  | [] => none
  | (a, b) :: t => if a = k then some b else lookup k t

/-- Go map assignment `m[k] = v`. -/
def insert (k : Nat) (v : V) : GoMap V → GoMap V
  | [] => [(k, v)]
  | (a, b) :: t => if a = k then (k, v) :: t else (a, b) :: insert k v t

/-- Go `delete(m, k)`. -/
def eraseKey (k : Nat) : GoMap V → GoMap V
  | [] => []
  | (a, b) :: t => if a = k then eraseKey k t else (a, b) :: eraseKey k t

/-- The key list of the map. -/
def keys : GoMap V → List Nat
  | [] => []
  | (a, _) :: t => a :: keys t

/-- Go `len(m) == 0`, the `encoding/gob` notion of a zero map value. -/
def isEmpty : GoMap V → Bool
  | [] => true
  | _ :: _ => false

theorem lookup_insert (k a : Nat) (v : V) (m : GoMap V) :
    lookup a (insert k v m) = if a = k then some v else lookup a m := by
  induction m with
  | nil =>
    by_cases h : a = k
    · simp [insert, lookup, h]
    · simp [insert, lookup, h, Ne.symm h]
  | cons hd t ih =>
    obtain ⟨x, y⟩ := hd
    by_cases hxk : x = k
    · subst hxk
      by_cases hax : a = x
      · simp [insert, lookup, hax]
      · simp [insert, lookup, hax, Ne.symm hax]
    · by_cases hax : a = x
      · subst hax
        simp [insert, lookup, hxk, Ne.symm hxk]
      · simp [insert, lookup, hxk, hax, Ne.symm hax, ih]

theorem lookup_eq_none_of_not_mem_keys {k : Nat} {m : GoMap V}
    (h : k ∉ keys m) : lookup k m = none := by
  induction m with
  | nil => rfl
  | cons hd t ih =>
    obtain ⟨x, y⟩ := hd
    rw [keys, List.mem_cons, not_or] at h
    rw [lookup, if_neg (fun hh => h.1 hh.symm)]
    exact ih h.2

theorem eraseKey_of_lookup_none {k : Nat} {m : GoMap V}
    (h : lookup k m = none) : eraseKey k m = m := by
  induction m with
  | nil => rfl
  | cons hd t ih =>
    obtain ⟨x, y⟩ := hd
    rw [lookup] at h
    by_cases hxk : x = k
    · rw [if_pos hxk] at h
      exact absurd h (by simp)
    · rw [if_neg hxk] at h
      rw [eraseKey, if_neg hxk, ih h]

end GoMap

/-! ### Entity data model (game.go) -/

/-- Go `LocationType` (`L_ROOM`, `L_PLAYER`, `L_ITEM`). -/
inductive LocationType : Type
  | room
  | player
  | item
deriving DecidableEq

/-- Go `Location` struct: a typed reference to a container entity. -/
structure Location : Type where
  id : Nat
  type : LocationType
deriving DecidableEq

/-- Go `Player` struct. -/
structure Player : Type where
  id : Nat
  name : String
  location : Location
  admin : Bool
deriving DecidableEq

mutual
/-- Go `Room` struct; its `Exits` field holds `Exit` values which in turn
embed a destination `Room` value, hence the mutual definition. -/
inductive Room : Type
  | mk (id : Nat) (name desc : String) (exits : List Exit) (owner : Nat)
      (attr : List (String × String))

/-- Go `Exit` struct; `Dest` is a full `Room` value in the source. -/
inductive Exit : Type
  | mk (id : Nat) (name desc : String) (dest : Room) (owner : Nat)
      (hidden lockable locked : Bool) (key : Nat)
      (attr : List (String × String))
end

/-- Go `Item` struct. -/
structure Item : Type where
  id : Nat
  name : String
  desc : String
  owner : Nat
  location : Location
deriving DecidableEq

/-- The `Id` field of a `Room`. -/
def Room.id : Room → Nat
  | .mk i _ _ _ _ _ => i

/-- The `Name` field of a `Room`. -/
def Room.name : Room → String
  | .mk _ n _ _ _ _ => n

/-- Go `WorldDatabase` struct: three per-kind ID counters, the default
room ID and the three entity maps. -/
structure WorldDatabase : Type where
  playerId : Nat
  roomId : Nat
  itemId : Nat
  defaultRoom : Nat
  players : GoMap Player
  rooms : GoMap Room
  items : GoMap Item

/-- The seed room built by `NewWorld`. -/
def mainLobby : Room := .mk 1 "Main Lobby" "This is the main lobby." [] 1 []

/-- The database produced by `NewWorld()`: counters start at 1, then the
seed room consumes room ID 1 (leaving the room counter at 2) and becomes
the default room. -/
def freshDb : WorldDatabase :=
  { playerId := 1
    roomId := 2
    itemId := 1
    defaultRoom := 1
    players := GoMap.empty
    rooms := GoMap.insert 1 mainLobby GoMap.empty
    items := GoMap.empty }

/-! ### WorldThread request processing (game.go, `WorldThread`)

Each `case` of the `select` statement in `WorldThread` becomes a pure step
function from the database and the request payload to the new database and
the list of values sent on the request's one-shot `Ack` channel (in send
order).  The `Find*` cases never mutate the database and are therefore not
part of the mutation request type.
-/

/-- The `NewPlayer` case: allocate `db.PlayerId` (post-incrementing the
counter with `uint64` wraparound), place the player in the default room,
grant admin to ID 1, store and reply. -/
def newPlayer (db : WorldDatabase) (name : String) :
    WorldDatabase × Player :=
  let i := db.playerId
  let p : Player :=
    { id := i
      name := name
      location := { id := db.defaultRoom, type := .room }
      admin := i = 1 }
  ({ db with
      playerId := (db.playerId + 1) % U64
      players := db.players.insert p.id p }, p)

/-- The `NewRoom` case: allocate `db.RoomId`, store and reply. -/
def newRoom (db : WorldDatabase) (name : String) (owner : Nat) :
    WorldDatabase × Room :=
  let i := db.roomId
  let r : Room := .mk i name "" [] owner []
  ({ db with
      roomId := (db.roomId + 1) % U64
      rooms := db.rooms.insert i r }, r)

/-- The `NewItem` case: allocate `db.ItemId`, locate the item at its owner,
store and reply. -/
def newItem (db : WorldDatabase) (name : String) (owner : Nat) :
    WorldDatabase × Item :=
  let i := db.itemId
  let it : Item :=
    { id := i
      name := name
      desc := ""
      owner := owner
      location := { id := owner, type := .player } }
  ({ db with
      itemId := (db.itemId + 1) % U64
      items := db.items.insert i it }, it)

/-- The `DestroyPlayer` case.  For ID 1 the code sends `false` on the Ack
channel but does not return, so it still falls through to the `delete` and
to a second send of `true`; the reply list records every send. -/
def destroyPlayer (db : WorldDatabase) (id : Nat) :
    WorldDatabase × List Bool :=
  let replies := if id = 1 then [false, true] else [true]
  ({ db with players := db.players.eraseKey id }, replies)

/-- The `DestroyRoom` case, with the same fall-through as `destroyPlayer`. -/
def destroyRoom (db : WorldDatabase) (id : Nat) :
    WorldDatabase × List Bool :=
  let replies := if id = 1 then [false, true] else [true]
  ({ db with rooms := db.rooms.eraseKey id }, replies)

/-- The `DestroyItem` case: unconditional `delete` and a single `true`. -/
def destroyItem (db : WorldDatabase) (id : Nat) :
    WorldDatabase × List Bool :=
  ({ db with items := db.items.eraseKey id }, [true])

/-- A mutation request to the world store loop. -/
inductive Request : Type
  | newPlayer (name : String)
  | newRoom (name : String) (owner : Nat)
  | newItem (name : String) (owner : Nat)
  | destroyPlayer (id : Nat)
  | destroyRoom (id : Nat)
  | destroyItem (id : Nat)

/-- One iteration of the `WorldThread` loop on a mutation request. -/
def step (db : WorldDatabase) : Request → WorldDatabase
  | .newPlayer n => (newPlayer db n).1
  | .newRoom n o => (newRoom db n o).1
  | .newItem n o => (newItem db n o).1
  | .destroyPlayer i => (destroyPlayer db i).1
  | .destroyRoom i => (destroyRoom db i).1
  | .destroyItem i => (destroyItem db i).1

/-- The database after serially processing a list of requests. -/
def run (db : WorldDatabase) : List Request → WorldDatabase
  | [] => db
  | r :: rs => run (step db r) rs

/-- The player IDs handed out on the Ack channels of the `NewPlayer`
requests of a run, in processing order. -/
def allocPlayerIds (db : WorldDatabase) : List Request → List Nat
  | [] => []
  | .newPlayer n :: rs => (newPlayer db n).2.id :: allocPlayerIds (step db (.newPlayer n)) rs
  | r :: rs => allocPlayerIds (step db r) rs

/-- The room IDs handed out on the Ack channels of the `NewRoom` requests
of a run, in processing order. -/
def allocRoomIds (db : WorldDatabase) : List Request → List Nat
  | [] => []
  | .newRoom n o :: rs => (newRoom db n o).2.id :: allocRoomIds (step db (.newRoom n o)) rs
  | r :: rs => allocRoomIds (step db r) rs

/-- The item IDs handed out on the Ack channels of the `NewItem` requests
of a run, in processing order. -/
def allocItemIds (db : WorldDatabase) : List Request → List Nat
  | [] => []
  | .newItem n o :: rs => (newItem db n o).2.id :: allocItemIds (step db (.newItem n o)) rs
  | r :: rs => allocItemIds (step db r) rs

/-! ### Telnet protocol filter (`TelnetInterceptor.Read`)

The loop body of `Read` is embedded byte by byte.  Bytes are `Nat` values
(only comparisons with the telnet constants matter).  The three loop-local
variables `inSeq`, `option` and `setting` form the filter state; `Read`
re-initializes them on every call, so `telnetRead` runs `telnetProcess`
from `telnetIdle`.
-/

/-- The telnet `IAC` escape byte (`escapeIac`). -/
def escapeIac : Nat := 255

/-- The telnet `SB` byte (`escapeSb`), first of the negotiation verbs. -/
def escapeSb : Nat := 250

/-- The telnet `SE` byte (`escapeSe`), first of the single-option codes. -/
def escapeSe : Nat := 240

/-- The loop-local state of `TelnetInterceptor.Read`. -/
structure TelnetState : Type where
  inSeq : Bool
  option : Nat
  setting : Nat
deriving DecidableEq

/-- The state at the top of every `Read` call: `inSeq := false` and zero
`option`/`setting` bytes. -/
def telnetIdle : TelnetState := { inSeq := false, option := 0, setting := 0 }

/-- The tail of each loop iteration (everything after the `switch`): the
settings handler, then the passthrough/escape test. -/
def telnetTail (inSeq : Bool) (opt set b : Nat) : TelnetState × List Nat :=
  if opt ≠ 0 ∧ set ≠ 0 then
    ({ inSeq := false, option := opt, setting := set }, [])
  else if inSeq = false then
    if b = escapeIac then
      ({ inSeq := true, option := opt, setting := set }, [])
    else
      ({ inSeq := inSeq, option := opt, setting := set }, [b])
  else
    ({ inSeq := inSeq, option := opt, setting := set }, [])

/-- One iteration of the `Read` loop on byte `b`: the option/setting reset,
the in-sequence `switch` (whose `continue` statements end the iteration
early), then `telnetTail`. -/
def telnetStep (st : TelnetState) (b : Nat) : TelnetState × List Nat :=
  let opt := if st.option ≠ 0 ∧ st.setting ≠ 0 then 0 else st.option
  let set := if st.option ≠ 0 ∧ st.setting ≠ 0 then 0 else st.setting
  if st.inSeq then
    if opt ≠ 0 then
      telnetTail st.inSeq opt b b
    else if b = escapeIac then
      telnetTail false 0 set b
    else if escapeSb ≤ b then
      ({ inSeq := st.inSeq, option := b, setting := set }, [])
    else if escapeSe ≤ b then
      ({ inSeq := false, option := opt, setting := set }, [])
    else
      telnetTail st.inSeq opt set b
  else
    telnetTail st.inSeq opt set b

/-- The `Read` loop over a chunk of input bytes, threading the state and
accumulating the emitted bytes. -/
def telnetProcess (st : TelnetState) : List Nat → TelnetState × List Nat
  | [] => (st, [])
  | b :: bs =>
    let r := telnetStep st b
    let rest := telnetProcess r.1 bs
    (rest.1, r.2 ++ rest.2)

/-- One call of `TelnetInterceptor.Read` on one chunk: the filter state is
freshly initialized, and the bytes appended to `p` are returned. -/
def telnetRead (bs : List Nat) : List Nat := (telnetProcess telnetIdle bs).2

/-! ### ID text encoding

The repository's test file (`game_test.go`, `idTests`) and command layer
call `ParseID`, whose definition is not among the provided sources (the
older `ParseId` in `game.go` is a bare `strconv.ParseUint` call without
the `@` handling the tests exercise).  `parseID` is therefore modelled
from the spec; `parseUint10` models `strconv.ParseUint(s, 10, 64)`
(which permits no sign) and `goTrimSpace` models `strings.TrimSpace`.
-/

/-- Unicode white space as recognized by Go's `unicode.IsSpace`. -/
def goIsSpace (c : Char) : Bool :=
  c = ' ' ∨ c = '\t' ∨ c = '\n' ∨ c.toNat = 11 ∨ c.toNat = 12 ∨
    c = '\r' ∨ c.toNat = 0x85 ∨ c.toNat = 0xA0 ∨ c.toNat = 0x1680 ∨
    (0x2000 ≤ c.toNat ∧ c.toNat ≤ 0x200A) ∨ c.toNat = 0x2028 ∨
    c.toNat = 0x2029 ∨ c.toNat = 0x202F ∨ c.toNat = 0x205F ∨
    c.toNat = 0x3000

/-- Model of Go `strings.TrimSpace`, on the character list of a string. -/
def goTrimSpace (s : List Char) : List Char :=
  (((s.dropWhile goIsSpace).reverse).dropWhile goIsSpace).reverse

/-- The numeric value of a decimal digit character, if it is one. -/
def digitVal (c : Char) : Option Nat :=
  if '0' ≤ c ∧ c ≤ '9' then some (c.toNat - '0'.toNat) else none

/-- The digit-accumulation loop of `strconv.ParseUint`: left to right,
`n = n*10 + d`, failing on the first non-digit character. -/
def parseDecLoop (acc : Nat) : List Char → Option Nat
  | [] => some acc
  | c :: cs =>
    match digitVal c with
    | some d => parseDecLoop (acc * 10 + d) cs
    | none => none

/-- Model of Go `strconv.ParseUint(s, 10, 64)`: a nonempty run of decimal
digits and nothing else (no sign, no interior space), with the 64-bit
range check (`ErrRange` at and beyond `2^64`). -/
def parseUint10 : List Char → Option Nat
  | [] => none
  | c :: cs =>
    match parseDecLoop 0 (c :: cs) with
    | some v => if v < U64 then some v else none
    | none => none

/-- The character of a decimal digit value. -/
def digitChar (d : Nat) : Char := Char.ofNat ('0'.toNat + d)

/-- Decimal rendering of a natural number, most significant digit
first. -/
def decRender (n : Nat) : List Char :=
  if n = 0 then ['0'] else ((Nat.digits 10 n).map digitChar).reverse

/-- Modelled from the spec: the missing `ParseID` (its definition is
absent from the sources; only `idTests` and its command-layer callers
appear).  Per the spec, parsing trims surrounding whitespace, requires
the `@` sign followed by a purely-decimal remainder, and rejects internal
whitespace and negatives. -/
def parseID (s : List Char) : Option Nat :=
  match goTrimSpace s with
  | '@' :: rest => parseUint10 rest
  | _ => none

/-- Modelled from the spec: the ID rendering `@<decimal>`. -/
def renderID (n : Nat) : List Char := '@' :: decRender n

/-- The older `ParseId` from `game.go`: a bare `strconv.ParseUint` call,
with no `@` or whitespace handling. -/
def ParseId (s : List Char) : Option Nat := parseUint10 s

/-! ### Persistence (`saveState` / `LoadWorld`) via `encoding/gob`

`saveState` encodes `w.db` with `encoding/gob` into a timestamped file and
re-links the fixed name `world.gob` to it; `LoadWorld` builds a fresh
`NewWorld()` and decodes `world.gob` into its database, if that file
exists.  Two documented gob behaviors decide the round-trip claim and are
modelled explicitly:

* a struct field whose value is the zero value of its type (length zero,
  for maps) is omitted from the transmission, and an omitted field leaves
  the corresponding destination field untouched on decode;
* decoding a transmitted map into a non-nil destination map does not clear
  the destination: transmitted entries are stored one by one, overwriting
  on key collision and leaving other pre-existing entries in place.

Entity values inside transmitted maps decode into freshly allocated zero
values, so for them encode-then-decode is the identity and they are
carried through verbatim.  The file system is passed as a parameter.
-/

/-- The gob transmission of a `WorldDatabase`: per field, `none` when the
field was omitted because its value was the zero value of its type. -/
structure GobDB : Type where
  playerId : Option Nat
  roomId : Option Nat
  itemId : Option Nat
  defaultRoom : Option Nat
  players : Option (GoMap Player)
  rooms : Option (GoMap Room)
  items : Option (GoMap Item)

/-- Gob encoding of the database (`enc.Encode(&w.db)` in `saveState`):
zero-valued fields are omitted. -/
def encodeDB (db : WorldDatabase) : GobDB :=
  { playerId := if db.playerId = 0 then none else some db.playerId
    roomId := if db.roomId = 0 then none else some db.roomId
    itemId := if db.itemId = 0 then none else some db.itemId
    defaultRoom := if db.defaultRoom = 0 then none else some db.defaultRoom
    players := if db.players.isEmpty then none else some db.players
    rooms := if db.rooms.isEmpty then none else some db.rooms
    items := if db.items.isEmpty then none else some db.items }

/-- Storing the transmitted entries of a map into an existing destination
map, one by one (gob map decoding does not clear the destination). -/
def mergeInto {V : Type} (base : GoMap V) : GoMap V → GoMap V
  | [] => base
  | (k, v) :: t => mergeInto (base.insert k v) t

/-- Gob decoding of a transmission into an existing database value
(`dec.Decode(&w.db)` in `LoadWorld`): omitted fields stay untouched,
scalar fields are overwritten, map fields are merged. -/
def decodeInto (base : WorldDatabase) (g : GobDB) : WorldDatabase :=
  { playerId := g.playerId.getD base.playerId
    roomId := g.roomId.getD base.roomId
    itemId := g.itemId.getD base.itemId
    defaultRoom := g.defaultRoom.getD base.defaultRoom
    players := match g.players with
      | none => base.players
      | some l => mergeInto base.players l
    rooms := match g.rooms with
      | none => base.rooms
      | some l => mergeInto base.rooms l
    items := match g.items with
      | none => base.items
      | some l => mergeInto base.items l }

/-- The success path of `saveState` followed by `LoadWorld` reading the
snapshot that was just written: `LoadWorld` decodes the saved
transmission into a fresh `NewWorld()` database. -/
def loadAfterSave (db : WorldDatabase) : WorldDatabase :=
  decodeInto freshDb (encodeDB db)

/-- What `LoadWorld` finds on disk: no `world.gob` file, a file that is
not a decodable gob stream, or a decodable transmission. -/
inductive SnapshotFile : Type
  | absent
  | garbled
  | decodable (g : GobDB)

/-- `LoadWorld`, over the modelled file system: an absent file yields the
fresh `NewWorld()` database and no error; an unreadable file yields an
error and no database; otherwise the transmission is decoded into the
fresh database. -/
def LoadWorld : SnapshotFile → Except Unit WorldDatabase
  | .absent => .ok freshDb
  | .garbled => .error ()
  | .decodable g => .ok (decodeInto freshDb g)

/-- Extensional (Go `reflect.DeepEqual`-style) equality of databases:
equal counters and default room, and entity maps with equal contents.
Go maps compare by key set and values, not by representation order. -/
structure DbEquiv (a b : WorldDatabase) : Prop where
  playerId : a.playerId = b.playerId
  roomId : a.roomId = b.roomId
  itemId : a.itemId = b.itemId
  defaultRoom : a.defaultRoom = b.defaultRoom
  players : ∀ k, a.players.lookup k = b.players.lookup k
  rooms : ∀ k, a.rooms.lookup k = b.rooms.lookup k
  items : ∀ k, a.items.lookup k = b.items.lookup k

/-! ### Session registry (`cm.go`, `ConnectionManager`) -/

/-- A live connection: `sess` stands for the connection's payload (socket,
player, shell, ...) and `id` is the `ID` field assigned by the manager. -/
structure Connection : Type where
  id : Nat
  sess : Nat
deriving DecidableEq

/-- The `ConnectionManager` state: the open-connections slice (in append
order) and the `nextConnectionID` counter. -/
structure CM : Type where
  connections : List Connection
  nextConnectionID : Nat
deriving DecidableEq

/-- `NewConnectionManager()`: empty slice, counter starts at 1. -/
def freshCM : CM := { connections := [], nextConnectionID := 1 }

/-- `findConnection`: whether some open connection carries the given ID
(the Go function returns the first matching index, `-1` if none). -/
def findConnection (m : CM) (id : Nat) : Bool :=
  m.connections.any (fun c => c.id = id)

/-- `addConnection`: a no-op when a connection with the same `ID` field is
already present; otherwise the connection receives the fresh identifier
`nextConnectionID` (post-incremented with `uint64` wraparound) and is
appended. -/
def addConnection (m : CM) (c : Connection) : CM :=
  if findConnection m c.id then m
  else
    { connections := m.connections ++ [{ c with id := m.nextConnectionID }]
      nextConnectionID := (m.nextConnectionID + 1) % U64 }

/-- `removeConnection`: remove the first connection with a matching `ID`
field, a no-op when there is none. -/
def removeConnection (m : CM) (c : Connection) : CM :=
  match m.connections.findIdx? (fun x => x.id = c.id) with
  | none => m
  | some i => { m with connections := m.connections.eraseIdx i }

/-- A registry operation: `Opened` or `Closed` message. -/
inductive CMOp : Type
  | openC (c : Connection)
  | closeC (c : Connection)

/-- One `ConnectionManagerThread` loop iteration. -/
def cmStep (m : CM) : CMOp → CM
  | .openC c => addConnection m c
  | .closeC c => removeConnection m c

/-- The registry after serially processing a list of operations. -/
def cmRun (m : CM) : List CMOp → CM
  | [] => m
  | op :: ops => cmRun (cmStep m op) ops

/-- The identifiers assigned by the effective (non-no-op) `addConnection`
calls of a run, in assignment order. -/
def assignedIds (m : CM) : List CMOp → List Nat
  | [] => []
  | .openC c :: ops =>
    if findConnection m c.id then assignedIds m ops
    else m.nextConnectionID :: assignedIds (addConnection m c) ops
  | .closeC c :: ops => assignedIds (removeConnection m c) ops

/-! ### Helper lemmas -/

theorem lookup_mergeInto_of_none {V : Type} {l : GoMap V} {k : Nat}
    (h : GoMap.lookup k l = none) (base : GoMap V) :
    GoMap.lookup k (mergeInto base l) = GoMap.lookup k base := by
  induction l generalizing base with
  | nil => rfl
  | cons hd t ih =>
    obtain ⟨a, v⟩ := hd
    rw [GoMap.lookup] at h
    by_cases hak : a = k
    · rw [if_pos hak] at h
      exact absurd h (by simp)
    · rw [if_neg hak] at h
      rw [mergeInto, ih h, GoMap.lookup_insert, if_neg (fun hh => hak hh.symm)]

theorem lookup_mergeInto_of_some {V : Type} {l : GoMap V} {k : Nat} {v : V}
    (hnd : (GoMap.keys l).Nodup) (h : GoMap.lookup k l = some v)
    (base : GoMap V) :
    GoMap.lookup k (mergeInto base l) = some v := by
  induction l generalizing base with
  | nil => exact absurd h (by simp [GoMap.lookup])
  | cons hd t ih =>
    obtain ⟨a, w⟩ := hd
    rw [GoMap.keys, List.nodup_cons] at hnd
    rw [GoMap.lookup] at h
    by_cases hak : a = k
    · rw [if_pos hak] at h
      have ht : GoMap.lookup k t = none :=
        GoMap.lookup_eq_none_of_not_mem_keys (hak ▸ hnd.1)
      rw [mergeInto, lookup_mergeInto_of_none ht, GoMap.lookup_insert,
        if_pos hak.symm]
      exact h
    · rw [if_neg hak] at h
      rw [mergeInto]
      exact ih hnd.2 h _

theorem allocPlayerIds_lb (rs : List Request) :
    ∀ db : WorldDatabase, db.playerId + rs.length < U64 →
      ∀ x ∈ allocPlayerIds db rs, db.playerId ≤ x := by
  induction rs with
  | nil => intro db _ x hx; exact absurd hx (by simp [allocPlayerIds])
  | cons r rs ih =>
    intro db hb x hx
    rw [List.length_cons] at hb
    cases r with
    | newPlayer n =>
      have hx' : x ∈ db.playerId ::
          allocPlayerIds (step db (.newPlayer n)) rs := hx
      have hstep : (step db (.newPlayer n)).playerId = db.playerId + 1 := by
        show (db.playerId + 1) % U64 = db.playerId + 1
        exact Nat.mod_eq_of_lt (by omega)
      rcases List.mem_cons.mp hx' with h | h
      · omega
      · have := ih (step db (.newPlayer n)) (by rw [hstep]; omega) x h
        omega
    | newRoom n o =>
      exact ih (step db (.newRoom n o))
        (show db.playerId + rs.length < U64 by omega) x hx
    | newItem n o =>
      exact ih (step db (.newItem n o))
        (show db.playerId + rs.length < U64 by omega) x hx
    | destroyPlayer i =>
      exact ih (step db (.destroyPlayer i))
        (show db.playerId + rs.length < U64 by omega) x hx
    | destroyRoom i =>
      exact ih (step db (.destroyRoom i))
        (show db.playerId + rs.length < U64 by omega) x hx
    | destroyItem i =>
      exact ih (step db (.destroyItem i))
        (show db.playerId + rs.length < U64 by omega) x hx

theorem allocRoomIds_lb (rs : List Request) :
    ∀ db : WorldDatabase, db.roomId + rs.length < U64 →
      ∀ x ∈ allocRoomIds db rs, db.roomId ≤ x := by
  induction rs with
  | nil => intro db _ x hx; exact absurd hx (by simp [allocRoomIds])
  | cons r rs ih =>
    intro db hb x hx
    rw [List.length_cons] at hb
    cases r with
    | newRoom n o =>
      have hx' : x ∈ db.roomId ::
          allocRoomIds (step db (.newRoom n o)) rs := hx
      have hstep : (step db (.newRoom n o)).roomId = db.roomId + 1 := by
        show (db.roomId + 1) % U64 = db.roomId + 1
        exact Nat.mod_eq_of_lt (by omega)
      rcases List.mem_cons.mp hx' with h | h
      · omega
      · have := ih (step db (.newRoom n o)) (by rw [hstep]; omega) x h
        omega
    | newPlayer n =>
      exact ih (step db (.newPlayer n))
        (show db.roomId + rs.length < U64 by omega) x hx
    | newItem n o =>
      exact ih (step db (.newItem n o))
        (show db.roomId + rs.length < U64 by omega) x hx
    | destroyPlayer i =>
      exact ih (step db (.destroyPlayer i))
        (show db.roomId + rs.length < U64 by omega) x hx
    | destroyRoom i =>
      exact ih (step db (.destroyRoom i))
        (show db.roomId + rs.length < U64 by omega) x hx
    | destroyItem i =>
      exact ih (step db (.destroyItem i))
        (show db.roomId + rs.length < U64 by omega) x hx

theorem allocItemIds_lb (rs : List Request) :
    ∀ db : WorldDatabase, db.itemId + rs.length < U64 →
      ∀ x ∈ allocItemIds db rs, db.itemId ≤ x := by
  induction rs with
  | nil => intro db _ x hx; exact absurd hx (by simp [allocItemIds])
  | cons r rs ih =>
    intro db hb x hx
    rw [List.length_cons] at hb
    cases r with
    | newItem n o =>
      have hx' : x ∈ db.itemId ::
          allocItemIds (step db (.newItem n o)) rs := hx
      have hstep : (step db (.newItem n o)).itemId = db.itemId + 1 := by
        show (db.itemId + 1) % U64 = db.itemId + 1
        exact Nat.mod_eq_of_lt (by omega)
      rcases List.mem_cons.mp hx' with h | h
      · omega
      · have := ih (step db (.newItem n o)) (by rw [hstep]; omega) x h
        omega
    | newPlayer n =>
      exact ih (step db (.newPlayer n))
        (show db.itemId + rs.length < U64 by omega) x hx
    | newRoom n o =>
      exact ih (step db (.newRoom n o))
        (show db.itemId + rs.length < U64 by omega) x hx
    | destroyPlayer i =>
      exact ih (step db (.destroyPlayer i))
        (show db.itemId + rs.length < U64 by omega) x hx
    | destroyRoom i =>
      exact ih (step db (.destroyRoom i))
        (show db.itemId + rs.length < U64 by omega) x hx
    | destroyItem i =>
      exact ih (step db (.destroyItem i))
        (show db.itemId + rs.length < U64 by omega) x hx

theorem allocPlayerIds_pairwise (rs : List Request) :
    ∀ db : WorldDatabase, db.playerId + rs.length < U64 →
      (allocPlayerIds db rs).Pairwise (· < ·) := by
  induction rs with
  | nil => intro db _; exact List.Pairwise.nil
  | cons r rs ih =>
    intro db hb
    rw [List.length_cons] at hb
    cases r with
    | newPlayer n =>
      have hstep : (step db (.newPlayer n)).playerId = db.playerId + 1 := by
        show (db.playerId + 1) % U64 = db.playerId + 1
        exact Nat.mod_eq_of_lt (by omega)
      show (db.playerId ::
        allocPlayerIds (step db (.newPlayer n)) rs).Pairwise (· < ·)
      refine List.Pairwise.cons (fun x hx => ?_)
        (ih (step db (.newPlayer n)) (by rw [hstep]; omega))
      have := allocPlayerIds_lb rs (step db (.newPlayer n))
        (by rw [hstep]; omega) x hx
      omega
    | newRoom n o =>
      exact ih (step db (.newRoom n o))
        (show db.playerId + rs.length < U64 by omega)
    | newItem n o =>
      exact ih (step db (.newItem n o))
        (show db.playerId + rs.length < U64 by omega)
    | destroyPlayer i =>
      exact ih (step db (.destroyPlayer i))
        (show db.playerId + rs.length < U64 by omega)
    | destroyRoom i =>
      exact ih (step db (.destroyRoom i))
        (show db.playerId + rs.length < U64 by omega)
    | destroyItem i =>
      exact ih (step db (.destroyItem i))
        (show db.playerId + rs.length < U64 by omega)

theorem allocRoomIds_pairwise (rs : List Request) :
    ∀ db : WorldDatabase, db.roomId + rs.length < U64 →
      (allocRoomIds db rs).Pairwise (· < ·) := by
  induction rs with
  | nil => intro db _; exact List.Pairwise.nil
  | cons r rs ih =>
    intro db hb
    rw [List.length_cons] at hb
    cases r with
    | newRoom n o =>
      have hstep : (step db (.newRoom n o)).roomId = db.roomId + 1 := by
        show (db.roomId + 1) % U64 = db.roomId + 1
        exact Nat.mod_eq_of_lt (by omega)
      show (db.roomId ::
        allocRoomIds (step db (.newRoom n o)) rs).Pairwise (· < ·)
      refine List.Pairwise.cons (fun x hx => ?_)
        (ih (step db (.newRoom n o)) (by rw [hstep]; omega))
      have := allocRoomIds_lb rs (step db (.newRoom n o))
        (by rw [hstep]; omega) x hx
      omega
    | newPlayer n =>
      exact ih (step db (.newPlayer n))
        (show db.roomId + rs.length < U64 by omega)
    | newItem n o =>
      exact ih (step db (.newItem n o))
        (show db.roomId + rs.length < U64 by omega)
    | destroyPlayer i =>
      exact ih (step db (.destroyPlayer i))
        (show db.roomId + rs.length < U64 by omega)
    | destroyRoom i =>
      exact ih (step db (.destroyRoom i))
        (show db.roomId + rs.length < U64 by omega)
    | destroyItem i =>
      exact ih (step db (.destroyItem i))
        (show db.roomId + rs.length < U64 by omega)

theorem allocItemIds_pairwise (rs : List Request) :
    ∀ db : WorldDatabase, db.itemId + rs.length < U64 →
      (allocItemIds db rs).Pairwise (· < ·) := by
  induction rs with
  | nil => intro db _; exact List.Pairwise.nil
  | cons r rs ih =>
    intro db hb
    rw [List.length_cons] at hb
    cases r with
    | newItem n o =>
      have hstep : (step db (.newItem n o)).itemId = db.itemId + 1 := by
        show (db.itemId + 1) % U64 = db.itemId + 1
        exact Nat.mod_eq_of_lt (by omega)
      show (db.itemId ::
        allocItemIds (step db (.newItem n o)) rs).Pairwise (· < ·)
      refine List.Pairwise.cons (fun x hx => ?_)
        (ih (step db (.newItem n o)) (by rw [hstep]; omega))
      have := allocItemIds_lb rs (step db (.newItem n o))
        (by rw [hstep]; omega) x hx
      omega
    | newPlayer n =>
      exact ih (step db (.newPlayer n))
        (show db.itemId + rs.length < U64 by omega)
    | newRoom n o =>
      exact ih (step db (.newRoom n o))
        (show db.itemId + rs.length < U64 by omega)
    | destroyPlayer i =>
      exact ih (step db (.destroyPlayer i))
        (show db.itemId + rs.length < U64 by omega)
    | destroyRoom i =>
      exact ih (step db (.destroyRoom i))
        (show db.itemId + rs.length < U64 by omega)
    | destroyItem i =>
      exact ih (step db (.destroyItem i))
        (show db.itemId + rs.length < U64 by omega)

theorem removeConnection_nextConnectionID (m : CM) (c : Connection) :
    (removeConnection m c).nextConnectionID = m.nextConnectionID := by
  simp only [removeConnection]
  split <;> rfl

theorem removeConnection_connections_sublist (m : CM) (c : Connection) :
    (removeConnection m c).connections.Sublist m.connections := by
  simp only [removeConnection]
  split
  · exact List.Sublist.refl _
  · exact List.eraseIdx_sublist _ _

theorem addConnection_of_found {m : CM} {c : Connection}
    (h : findConnection m c.id = true) : addConnection m c = m := by
  rw [addConnection, if_pos h]

theorem cm_inv (ops : List CMOp) :
    ∀ m : CM, m.nextConnectionID + ops.length < U64 →
      (∀ c ∈ m.connections, c.id < m.nextConnectionID) →
      (m.connections.map Connection.id).Pairwise (· < ·) →
      (∀ c ∈ (cmRun m ops).connections,
          c.id < (cmRun m ops).nextConnectionID) ∧
        ((cmRun m ops).connections.map Connection.id).Pairwise (· < ·) := by
  induction ops with
  | nil => intro m _ h1 h2; exact ⟨h1, h2⟩
  | cons op ops ih =>
    intro m hb h1 h2
    rw [List.length_cons] at hb
    cases op with
    | openC c =>
      have hgoal :
          ((∀ x ∈ (cmRun (addConnection m c) ops).connections,
              x.id < (cmRun (addConnection m c) ops).nextConnectionID) ∧
            ((cmRun (addConnection m c) ops).connections.map
              Connection.id).Pairwise (· < ·)) →
          (∀ x ∈ (cmRun m (.openC c :: ops)).connections,
              x.id < (cmRun m (.openC c :: ops)).nextConnectionID) ∧
            ((cmRun m (.openC c :: ops)).connections.map
              Connection.id).Pairwise (· < ·) := fun h => h
      apply hgoal
      by_cases hfc : findConnection m c.id = true
      · rw [addConnection_of_found hfc]
        exact ih m (by omega) h1 h2
      · have hmod : (m.nextConnectionID + 1) % U64 = m.nextConnectionID + 1 :=
          Nat.mod_eq_of_lt (by omega)
        have hadd : addConnection m c =
            { connections :=
                m.connections ++ [{ c with id := m.nextConnectionID }]
              nextConnectionID := m.nextConnectionID + 1 } := by
          rw [addConnection, if_neg hfc, hmod]
        rw [hadd]
        refine ih _ (show m.nextConnectionID + 1 + ops.length < U64 by omega)
          ?_ ?_
        · show ∀ x ∈ m.connections ++ [{ c with id := m.nextConnectionID }],
            x.id < m.nextConnectionID + 1
          intro x hx
          rcases List.mem_append.mp hx with h | h
          · have := h1 x h
            omega
          · rcases List.mem_singleton.mp h with rfl
            exact Nat.lt_succ_self _
        · show ((m.connections ++
            [{ c with id := m.nextConnectionID }]).map
              Connection.id).Pairwise (· < ·)
          rw [List.map_append, List.pairwise_append]
          refine ⟨h2, List.pairwise_singleton _ _, ?_⟩
          intro a ha b hb'
          rcases List.mem_map.mp ha with ⟨x, hx, rfl⟩
          rcases List.mem_map.mp hb' with ⟨y, hy, rfl⟩
          rcases List.mem_singleton.mp hy with rfl
          exact h1 x hx
    | closeC c =>
      show (∀ x ∈ (cmRun (removeConnection m c) ops).connections, _) ∧ _
      have hsub := removeConnection_connections_sublist m c
      refine ih _ ?_ ?_ ?_
      · rw [removeConnection_nextConnectionID]
        omega
      · intro x hx
        rw [removeConnection_nextConnectionID]
        exact h1 x (hsub.mem hx)
      · exact h2.sublist (hsub.map Connection.id)

theorem assignedIds_lb (ops : List CMOp) :
    ∀ m : CM, m.nextConnectionID + ops.length < U64 →
      ∀ x ∈ assignedIds m ops, m.nextConnectionID ≤ x := by
  induction ops with
  | nil => intro m _ x hx; exact absurd hx (by simp [assignedIds])
  | cons op ops ih =>
    intro m hb x hx
    rw [List.length_cons] at hb
    cases op with
    | openC c =>
      rw [assignedIds] at hx
      by_cases hfc : findConnection m c.id = true
      · rw [if_pos hfc] at hx
        exact ih m (by omega) x hx
      · rw [if_neg hfc] at hx
        have hnext : (addConnection m c).nextConnectionID =
            m.nextConnectionID + 1 := by
          rw [addConnection, if_neg hfc]
          exact Nat.mod_eq_of_lt (by omega)
        rcases List.mem_cons.mp hx with h | h
        · omega
        · have := ih (addConnection m c) (by rw [hnext]; omega) x h
          omega
    | closeC c =>
      rw [assignedIds] at hx
      have := ih (removeConnection m c)
        (by rw [removeConnection_nextConnectionID]; omega) x hx
      rw [removeConnection_nextConnectionID] at this
      omega

theorem assignedIds_pairwise (ops : List CMOp) :
    ∀ m : CM, m.nextConnectionID + ops.length < U64 →
      (assignedIds m ops).Pairwise (· < ·) := by
  induction ops with
  | nil => intro m _; exact List.Pairwise.nil
  | cons op ops ih =>
    intro m hb
    rw [List.length_cons] at hb
    cases op with
    | openC c =>
      rw [assignedIds]
      by_cases hfc : findConnection m c.id = true
      · rw [if_pos hfc]
        exact ih m (by omega)
      · rw [if_neg hfc]
        have hnext : (addConnection m c).nextConnectionID =
            m.nextConnectionID + 1 := by
          rw [addConnection, if_neg hfc]
          exact Nat.mod_eq_of_lt (by omega)
        refine List.Pairwise.cons (fun x hx => ?_)
          (ih (addConnection m c) (by rw [hnext]; omega))
        have := assignedIds_lb ops (addConnection m c)
          (by rw [hnext]; omega) x hx
        omega
    | closeC c =>
      rw [assignedIds]
      have := ih (removeConnection m c)
        (by rw [removeConnection_nextConnectionID]; omega)
      exact this

theorem digitVal_digitChar {d : Nat} (h : d < 10) :
    digitVal (digitChar d) = some d := by
  interval_cases d <;> decide

theorem goIsSpace_digitChar {d : Nat} (h : d < 10) :
    goIsSpace (digitChar d) = false := by
  interval_cases d <;> decide

theorem parseDecLoop_append (xs : List Char) (c : Char) :
    ∀ acc, parseDecLoop acc (xs ++ [c]) =
      match parseDecLoop acc xs, digitVal c with
      | some v, some d => some (v * 10 + d)
      | _, _ => none := by
  induction xs with
  | nil =>
    intro acc
    cases hc : digitVal c <;> simp [parseDecLoop, hc]
  | cons x xs ih =>
    intro acc
    cases hx : digitVal x with
    | some d => simp [parseDecLoop, hx, ih]
    | none => cases hc : digitVal c <;> simp [parseDecLoop, hx, hc]

theorem parseDecLoop_digits (n : Nat) :
    parseDecLoop 0 (((Nat.digits 10 n).map digitChar).reverse) = some n := by
  induction n using Nat.strong_induction_on with
  | _ n ih =>
    by_cases h0 : n = 0
    · subst h0
      simp [parseDecLoop]
    · have hd := Nat.digits_def' (b := 10) (by norm_num)
        (Nat.pos_of_ne_zero h0)
      have ih' := ih (n / 10)
        (Nat.div_lt_self (Nat.pos_of_ne_zero h0) (by norm_num))
      rw [hd, List.map_cons, List.reverse_cons, parseDecLoop_append, ih',
        digitVal_digitChar (Nat.mod_lt n (by norm_num))]
      show some (n / 10 * 10 + n % 10) = some n
      have hnm : n / 10 * 10 + n % 10 = n := by omega
      rw [hnm]

theorem parseDecLoop_decRender (n : Nat) :
    parseDecLoop 0 (decRender n) = some n := by
  rw [decRender]
  by_cases h0 : n = 0
  · subst h0
    rw [if_pos rfl]
    decide
  · rw [if_neg h0]
    exact parseDecLoop_digits n

theorem decRender_ne_nil (n : Nat) : decRender n ≠ [] := by
  rw [decRender]
  by_cases h0 : n = 0
  · rw [if_pos h0]
    simp
  · rw [if_neg h0]
    simp [Nat.digits_ne_nil_iff_ne_zero.mpr h0]

theorem parseUint10_decRender {n : Nat} (h : n < U64) :
    parseUint10 (decRender n) = some n := by
  obtain ⟨c, cs, hl⟩ := List.exists_cons_of_ne_nil (decRender_ne_nil n)
  have hloop := parseDecLoop_decRender n
  rw [hl] at hloop ⊢
  show (match parseDecLoop 0 (c :: cs) with
    | some v => if v < U64 then some v else none
    | none => none) = some n
  rw [hloop]
  show (if n < U64 then some n else none) = some n
  rw [if_pos h]

theorem dropWhile_eq_self_of_forall {p : Char → Bool} {l : List Char}
    (h : ∀ c ∈ l, p c = false) : List.dropWhile p l = l := by
  cases l with
  | nil => rfl
  | cons a t =>
    rw [List.dropWhile_cons, h a (List.mem_cons_self a t), if_neg (by simp)]

theorem goTrimSpace_eq_self {l : List Char}
    (h : ∀ c ∈ l, goIsSpace c = false) : goTrimSpace l = l := by
  rw [goTrimSpace, dropWhile_eq_self_of_forall h,
    dropWhile_eq_self_of_forall (fun c hc => h c (List.mem_reverse.mp hc)),
    List.reverse_reverse]

theorem renderID_no_space (n : Nat) :
    ∀ c ∈ renderID n, goIsSpace c = false := by
  intro c hc
  rw [renderID] at hc
  rcases List.mem_cons.mp hc with rfl | hc
  · decide
  · rw [decRender] at hc
    by_cases h0 : n = 0
    · rw [if_pos h0] at hc
      rcases List.mem_singleton.mp hc with rfl
      decide
    · rw [if_neg h0] at hc
      rcases List.mem_map.mp (List.mem_reverse.mp hc) with ⟨d, hd, rfl⟩
      exact goIsSpace_digitChar (Nat.digits_lt_base (by norm_num) hd)

theorem parseID_renderID {n : Nat} (h : n < U64) :
    parseID (renderID n) = some n := by
  rw [parseID, goTrimSpace_eq_self (renderID_no_space n)]
  show parseUint10 (decRender n) = some n
  exact parseUint10_decRender h

/-- A byte other than the escape byte 255 arriving while the filter is in
its idle state is passed through unchanged, and the filter stays idle. -/
theorem telnetRead_cons_data {b : Nat} (bs : List Nat) (h : b ≠ 255) :
    telnetRead (b :: bs) = b :: telnetRead bs := by
  have hstep : telnetStep telnetIdle b = (telnetIdle, [b]) := by
    show telnetTail false 0 0 b = _
    rw [telnetTail, if_neg (by simp), if_pos rfl,
      if_neg (show ¬b = escapeIac from by simpa [escapeIac] using h)]
    rfl
  rw [telnetRead, telnetProcess]
  simp only [hstep]
  rfl

theorem lookup_mergeInto_empty {V : Type} {l : GoMap V}
    (hnd : (GoMap.keys l).Nodup) (k : Nat) :
    GoMap.lookup k (mergeInto GoMap.empty l) = GoMap.lookup k l := by
  cases hk : GoMap.lookup k l with
  | none => rw [lookup_mergeInto_of_none hk]; rfl
  | some v => exact lookup_mergeInto_of_some hnd hk _

theorem loadAfterSave_players_eq (db : WorldDatabase) :
    (loadAfterSave db).players = mergeInto GoMap.empty db.players := by
  cases hpl : db.players with
  | nil =>
    simp [loadAfterSave, decodeInto, encodeDB, hpl, GoMap.isEmpty, freshDb,
      GoMap.empty, mergeInto]
  | cons hd t =>
    simp [loadAfterSave, decodeInto, encodeDB, hpl, GoMap.isEmpty, freshDb,
      GoMap.empty]

theorem loadAfterSave_items_eq (db : WorldDatabase) :
    (loadAfterSave db).items = mergeInto GoMap.empty db.items := by
  cases hit : db.items with
  | nil =>
    simp [loadAfterSave, decodeInto, encodeDB, hit, GoMap.isEmpty, freshDb,
      GoMap.empty, mergeInto]
  | cons hd t =>
    simp [loadAfterSave, decodeInto, encodeDB, hit, GoMap.isEmpty, freshDb,
      GoMap.empty]

theorem loadAfterSave_rooms_eq (db : WorldDatabase) (hne : db.rooms ≠ []) :
    (loadAfterSave db).rooms = mergeInto freshDb.rooms db.rooms := by
  cases hrm : db.rooms with
  | nil => exact absurd hrm hne
  | cons hd t =>
    simp [loadAfterSave, decodeInto, encodeDB, hrm, GoMap.isEmpty]

/-! ### Claim theorems -/

/-- C1 (code bug): the spec requires `destroy(Room,1)` / `destroy(Player,1)`
to reply `false` and leave the maps unchanged, but in `WorldThread` the
`e.Ack <- false` for ID 1 is not followed by a `return` or `continue`, so
the handler falls through: it deletes the protected entry anyway and then
sends a second reply `true` on the one-shot channel.  Evaluated at ID 1
on the fresh world (rooms) and after creating player 1 (players): the
reply sequence is `[false, true]` and the key-1 entry present beforehand
is gone afterwards. -/
theorem C1_destroy_protected_falls_through :
    (destroyRoom freshDb 1).2 = [false, true] ∧
      GoMap.lookup 1 (destroyRoom freshDb 1).1.rooms = none ∧
      (GoMap.lookup 1 freshDb.rooms).isSome = true ∧
      (destroyPlayer (newPlayer freshDb "Dave").1 1).2 = [false, true] ∧
      GoMap.lookup 1
        (destroyPlayer (newPlayer freshDb "Dave").1 1).1.players = none ∧
      (GoMap.lookup 1 (newPlayer freshDb "Dave").1.players).isSome = true :=
  ⟨rfl, rfl, rfl, rfl, rfl, rfl⟩

/-- C3 counterexample: save-then-load is not the identity on every
database.  `LoadWorld` decodes into a fresh `NewWorld()` database, and gob
map decoding merges instead of replacing, so a database whose `Rooms` map
lacks the seed key 1 (reachable, via the ID-1 destroy fall-through of C1)
comes back with the Main Lobby re-inserted at key 1. -/
theorem C3_roundtrip_counterexample :
    ¬DbEquiv (loadAfterSave (destroyRoom freshDb 1).1)
      (destroyRoom freshDb 1).1 := by
  intro h
  have h1 : (some mainLobby : Option Room) = none := h.rooms 1
  exact Option.noConfusion h1

/-- C3 (corrected): save-then-load reproduces the database (deep equality:
equal counters, default room and entity-map contents) for every database
whose counters and default-room field are nonzero and whose `Rooms` map
still contains the seed key 1 — which holds in every state reachable
without destroying room 1.  The `Nodup` hypotheses state that the
association lists faithfully represent Go maps (one binding per key). -/
theorem C3_roundtrip_corrected (db : WorldDatabase)
    (hndp : (GoMap.keys db.players).Nodup)
    (hndr : (GoMap.keys db.rooms).Nodup)
    (hndi : (GoMap.keys db.items).Nodup)
    (hp : db.playerId ≠ 0) (hr : db.roomId ≠ 0) (hi : db.itemId ≠ 0)
    (hdr : db.defaultRoom ≠ 0)
    (hlobby : (GoMap.lookup 1 db.rooms).isSome = true) :
    DbEquiv (loadAfterSave db) db := by
  have hne : db.rooms ≠ [] := by
    intro hh
    rw [hh] at hlobby
    exact Bool.noConfusion hlobby
  refine ⟨?_, ?_, ?_, ?_, ?_, ?_, ?_⟩
  · simp [loadAfterSave, decodeInto, encodeDB, hp]
  · simp [loadAfterSave, decodeInto, encodeDB, hr]
  · simp [loadAfterSave, decodeInto, encodeDB, hi]
  · simp [loadAfterSave, decodeInto, encodeDB, hdr]
  · intro k
    rw [loadAfterSave_players_eq, lookup_mergeInto_empty hndp]
  · intro k
    rw [loadAfterSave_rooms_eq db hne]
    cases hk : GoMap.lookup k db.rooms with
    | some v => exact lookup_mergeInto_of_some hndr hk _
    | none =>
      rw [lookup_mergeInto_of_none hk]
      have hk1 : k ≠ 1 := by
        intro hh
        rw [hh] at hk
        rw [hk] at hlobby
        exact Bool.noConfusion hlobby
      show (if 1 = k then some mainLobby else none) = none
      rw [if_neg (fun hh => hk1 hh.symm)]
  · intro k
    rw [loadAfterSave_items_eq, lookup_mergeInto_empty hndi]

/-- C3 witness: the round-trip theorem applied to the concrete database
reached from the fresh world by creating a player, a room and an item. -/
theorem C3_roundtrip_corrected_witness :
    DbEquiv
      (loadAfterSave
        (run freshDb [.newPlayer "ada", .newRoom "den" 1, .newItem "orb" 1]))
      (run freshDb [.newPlayer "ada", .newRoom "den" 1, .newItem "orb" 1]) :=
  C3_roundtrip_corrected _ (by decide) (by decide) (by decide) (by decide)
    (by decide) (by decide) (by decide) (by decide)

/-- C4 counterexample: IDs are not drawn from one global counter shared by
all kinds.  From the fresh world, creating one player and one item yields
a player with ID 1 and an item with ID 1: two entities of different kinds
share an ID. -/
theorem C4_cross_kind_id_collision :
    (GoMap.lookup 1
        (run freshDb [.newPlayer "ada", .newItem "orb" 1]).players).map
      Player.id = some 1 ∧
      (GoMap.lookup 1
          (run freshDb [.newPlayer "ada", .newItem "orb" 1]).items).map
        Item.id = some 1 :=
  ⟨rfl, rfl⟩

/-- C4 (corrected): each kind has its own monotonically increasing
counter (`PlayerId`, `RoomId`, `ItemId`).  Within each kind the IDs
handed out over any run of fewer than `2^64 - 2` requests are strictly
increasing, hence pairwise distinct and never reused; across kinds IDs
may coincide. -/
theorem C4_per_kind_monotonic_ids (rs : List Request)
    (h : rs.length + 2 < U64) :
    (allocPlayerIds freshDb rs).Pairwise (· < ·) ∧
      (allocRoomIds freshDb rs).Pairwise (· < ·) ∧
      (allocItemIds freshDb rs).Pairwise (· < ·) :=
  ⟨allocPlayerIds_pairwise rs freshDb (show 1 + rs.length < U64 by omega),
    allocRoomIds_pairwise rs freshDb (show 2 + rs.length < U64 by omega),
    allocItemIds_pairwise rs freshDb (show 1 + rs.length < U64 by omega)⟩

/-- C4 witness: the per-kind allocation theorem at a concrete request
list mixing creates and destroys. -/
theorem C4_per_kind_monotonic_ids_witness :
    (allocPlayerIds freshDb
        [.newPlayer "ada", .newRoom "den" 1, .newPlayer "bob",
          .destroyPlayer 1, .newItem "orb" 2]).Pairwise (· < ·) ∧
      (allocRoomIds freshDb
          [.newPlayer "ada", .newRoom "den" 1, .newPlayer "bob",
            .destroyPlayer 1, .newItem "orb" 2]).Pairwise (· < ·) ∧
      (allocItemIds freshDb
          [.newPlayer "ada", .newRoom "den" 1, .newPlayer "bob",
            .destroyPlayer 1, .newItem "orb" 2]).Pairwise (· < ·) :=
  C4_per_kind_monotonic_ids _ (by decide)

/-- C5 (spec-modelled): ID parsing trims surrounding whitespace, requires
the `@` sign with a purely-decimal remainder, and rejects negatives,
missing `@` and internal whitespace; rendering writes `@<decimal>`, and
parse after render is the identity on every 64-bit value. -/
theorem C5_parse_render_roundtrip :
    (∀ n : Nat, n < U64 → parseID (renderID n) = some n) ∧
      parseID ['@', '1'] = some 1 ∧
      parseID [' ', ' ', '@', '1', ' ', ' ', ' '] = some 1 ∧
      parseID ['@', '-', '1'] = none ∧
      parseID ['1', '2', '3', '4'] = none ∧
      parseID ['@', ' ', ' ', '1', '2', '3'] = none :=
  ⟨fun _ h => parseID_renderID h, by decide, by decide, by decide,
    by decide, by decide⟩

/-- C5 witness: the round-trip at the concrete value 87654 (one of the
`idTests` vectors). -/
theorem C5_parse_render_roundtrip_witness :
    parseID (renderID 87654) = some 87654 :=
  C5_parse_render_roundtrip.1 87654 (by decide)

/-- C6 (code bug): after escape-escape the filter should consume the pair
and resume passthrough (per the spec, and per the source comment "Exit
sequence, output character 255").  Instead the `b == escapeIac` case does
not `continue`, so the fall-through re-enters sequence state and the data
byte following the pair is swallowed: reading `[255, 255, 65]` emits
nothing, while `65` alone passes through. -/
theorem C6_escape_escape_swallows_data :
    telnetRead [255, 255, 65] = [] ∧ telnetRead [65] = [65] :=
  ⟨rfl, rfl⟩

/-- C7 counterexample: destroying an unknown ID does not reply `false`.
The `DestroyItem` handler deletes unconditionally and always replies
`true`; item 5 does not exist in the fresh world, yet the reply is
`[true]`. -/
theorem C7_destroy_unknown_counterexample :
    GoMap.lookup 5 freshDb.items = none ∧
      (destroyItem freshDb 5).2 = [true] ∧
      (destroyItem freshDb 5).2 ≠ [false] :=
  ⟨rfl, rfl, by decide⟩

/-- C7 (corrected): destroying an ID that has no entry replies `true`
(NotFound is not distinguished: the Go `delete` of an absent key is a
no-op and the handler acknowledges unconditionally), and the database is
unchanged.  For players and rooms this holds for IDs other than 1; ID 1
additionally triggers the C1 fall-through reply sequence. -/
theorem C7_destroy_unknown_noop (db : WorldDatabase) (id : Nat)
    (hid : id ≠ 1)
    (hpl : GoMap.lookup id db.players = none)
    (hrm : GoMap.lookup id db.rooms = none)
    (hit : GoMap.lookup id db.items = none) :
    destroyPlayer db id = (db, [true]) ∧
      destroyRoom db id = (db, [true]) ∧
      destroyItem db id = (db, [true]) := by
  refine ⟨?_, ?_, ?_⟩
  · simp [destroyPlayer, hid, GoMap.eraseKey_of_lookup_none hpl]
  · simp [destroyRoom, hid, GoMap.eraseKey_of_lookup_none hrm]
  · simp [destroyItem, GoMap.eraseKey_of_lookup_none hit]

/-- C7 witness: destroy of the absent ID 5 on the fresh world. -/
theorem C7_destroy_unknown_noop_witness :
    destroyPlayer freshDb 5 = (freshDb, [true]) ∧
      destroyRoom freshDb 5 = (freshDb, [true]) ∧
      destroyItem freshDb 5 = (freshDb, [true]) :=
  C7_destroy_unknown_noop freshDb 5 (by decide) rfl rfl rfl

/-- C8: `LoadWorld` distinguishes the two failure shapes: an absent
snapshot file yields the freshly initialized database and no error (first
boot), while a present but undecodable file yields an error and no
database; a decodable file is decoded into the fresh database. -/
theorem C8_load_failure_shapes :
    LoadWorld .absent = .ok freshDb ∧
      LoadWorld .garbled = .error () ∧
      ∀ g, LoadWorld (.decodable g) = .ok (decodeInto freshDb g) :=
  ⟨rfl, rfl, fun _ => rfl⟩

/-- C9: across any sequence of registry operations (fewer than `2^64 - 1`
of them, so the `uint64` counter cannot wrap), the identifiers assigned
by effective `addConnection` calls are strictly increasing in assignment
order (hence fresh and pairwise distinct), the live connections carry
pairwise distinct, increasing identifiers, and re-adding a connection
whose ID is already present changes nothing. -/
theorem C9_connection_ids (ops : List CMOp) (h : ops.length + 1 < U64) :
    (assignedIds freshCM ops).Pairwise (· < ·) ∧
      ((cmRun freshCM ops).connections.map Connection.id).Pairwise (· < ·) ∧
      ∀ (m : CM) (c : Connection), findConnection m c.id = true →
        addConnection m c = m :=
  ⟨assignedIds_pairwise ops freshCM (show 1 + ops.length < U64 by omega),
    (cm_inv ops freshCM (show 1 + ops.length < U64 by omega)
        (fun c hc => absurd hc (List.not_mem_nil c))
        List.Pairwise.nil).2,
    fun _ c hf => addConnection_of_found hf⟩

/-- C9 witness: two opens, one close, one open. -/
theorem C9_connection_ids_witness :
    (assignedIds freshCM
        [.openC ⟨0, 10⟩, .openC ⟨0, 11⟩, .closeC ⟨1, 10⟩,
          .openC ⟨0, 12⟩]).Pairwise (· < ·) ∧
      ((cmRun freshCM
          [.openC ⟨0, 10⟩, .openC ⟨0, 11⟩, .closeC ⟨1, 10⟩,
            .openC ⟨0, 12⟩]).connections.map
        Connection.id).Pairwise (· < ·) ∧
      ∀ (m : CM) (c : Connection), findConnection m c.id = true →
        addConnection m c = m :=
  C9_connection_ids _ (by decide)

/-- C10 counterexample: a continuation byte that is itself 255 is not
delivered as ordinary data by the next `Read` call.  Splitting the
3-byte sequence `[255, 251, 255]` as `[255, 251]` then `[255]`: the
second call consumes the 255 as the start of a new sequence and emits
nothing. -/
theorem C10_split_escape_consumed :
    telnetRead [255, 251] = [] ∧ telnetRead [255] = [] :=
  ⟨rfl, rfl⟩

/-- C10 (corrected): every `Read` call re-initializes the filter state
(`telnetRead` runs from `telnetIdle` by definition), so continuation
bytes of a sequence split across calls are processed as a fresh stream:
a leading non-255 byte is delivered as ordinary data (while carrying the
in-sequence state across the boundary would have consumed it), but a
continuation byte equal to 255 starts a new sequence instead. -/
theorem C10_read_state_reset :
    (∀ b : Nat, b ≠ 255 → ∀ tl : List Nat,
        telnetRead (b :: tl) = b :: telnetRead tl) ∧
      telnetRead [255, 251] = [] ∧ telnetRead [1] = [1] ∧
      (telnetProcess (telnetProcess telnetIdle [255, 251]).1 [1]).2 = [] :=
  ⟨fun _ hb tl => telnetRead_cons_data tl hb, rfl, rfl, rfl⟩

/-- C10 witness: the state-reset theorem at the data byte 7. -/
theorem C10_read_state_reset_witness :
    telnetRead [7] = 7 :: telnetRead [] :=
  C10_read_state_reset.1 7 (by decide) []

end Mush
